import Mathlib

/-!
Verification of the p0ker Monte-Carlo house-edge simulator.

The Python source (src/backend/config.py, src/backend/engine.py) is embedded
shallowly: real-valued quantities become `ℚ`, the integer fields `players` and
`rounds` become `ℤ` (Python's `range(n)` is empty for `n ≤ 0`, modelled with
`Int.toNat`), and the global random source `random.random()` becomes an
explicit stream `ds : ℕ → ℚ` of draws, consumed left to right, one per
player-turn.  Python's `round(x, n)` (round-half-to-even on the exact value)
is modelled by `roundTo`.  Division, which in Python raises
`ZeroDivisionError` on a zero divisor, is additionally given a fallible
embedding `pydiv` used by `simulateE` to show no error can be signalled.
-/

namespace P0ker

/-- `Config` from src/backend/config.py, defaults included.
`tube_initial : Dict[str, float]` is modelled as an association list. -/
structure Config where
  players : ℤ := 4
  ante : ℚ := 5
  rounds : ℤ := 20000
  target_edge : ℚ := 5 / 100
  min_edge : ℚ := 3 / 100
  max_edge : ℚ := 7 / 100
  bust_multiplier : ℚ := 1
  tube_initial : List (String × ℚ) :=
    [("ST", 5), ("FL", 10), ("FH", 15), ("SF", 20), ("RF", 25)]
deriving Repr, DecidableEq

/-- The dictionary returned by `GameEngine.simulate`. -/
structure SimResult where
  house_net : ℚ
  house_edge : ℚ
deriving Repr, DecidableEq

/-- `GameEngine` state: the configuration reference and the mutable
`house_net` accumulator set in `__init__`. -/
structure GameEngine where
  config : Config
  house_net : ℚ
deriving Repr, DecidableEq

/-- Python's `round(x, n)` on the exact rational value: round
`x * 10^n` half-to-even to an integer, then scale back. -/
def roundHalfEven (x : ℚ) : ℤ :=
  let f := Int.floor x
  let frac := x - (f : ℚ)
  if frac < 1 / 2 then f
  else if 1 / 2 < frac then f + 1
  else if f % 2 = 0 then f else f + 1

/-- Round to `n` decimal places (Python `round(x, n)`). -/
def roundTo (n : ℕ) (x : ℚ) : ℚ :=
  (roundHalfEven (x * 10 ^ n) : ℚ) / 10 ^ n

/-- Python division: raises `ZeroDivisionError` when the divisor is zero. -/
def pydiv (a b : ℚ) : Except String ℚ :=
  if b = 0 then Except.error ("ZeroDivisionError") else Except.ok (a / b)

/-- The body of one player-turn in `GameEngine.run_round`: the change applied
to `house_net` given the draw `r`.
```
if r < 0.47: house_net -= ante
elif r < 0.95: house_net += ante
else: house_net += ante * bust_multiplier
``` -/
def turnDelta (c : Config) (r : ℚ) : ℚ :=
  if r < 47 / 100 then -c.ante
  else if r < 95 / 100 then c.ante
  else c.ante * c.bust_multiplier

/-- The `for _ in range(players)` loop of `run_round`: `n` remaining turns,
accumulator `acc`, next draw index `idx`; returns the accumulator and the
index after the loop. -/
def runTurns (c : Config) (ds : ℕ → ℚ) : ℕ → ℚ → ℕ → ℚ × ℕ
  | 0, acc, idx => (acc, idx)
  | n + 1, acc, idx => runTurns c ds n (acc + turnDelta c (ds idx)) (idx + 1)

/-- `GameEngine.run_round`: one round of `players` turns, threading the
engine state and the draw index. -/
def run_round (e : GameEngine) (ds : ℕ → ℚ) (idx : ℕ) : GameEngine × ℕ :=
  let p := runTurns e.config ds e.config.players.toNat e.house_net idx
  (⟨e.config, p.1⟩, p.2)

/-- The `for _ in range(rounds)` loop of `simulate`: `n` remaining rounds
applied to the pair (engine state, draw index). -/
def runRoundsE (ds : ℕ → ℚ) : ℕ → GameEngine × ℕ → GameEngine × ℕ
  | 0, s => s
  | n + 1, s => runRoundsE ds n (run_round s.1 ds s.2)

/-- `total_input = rounds * players * ante` as computed in `simulate`. -/
def totalInput (c : Config) : ℚ := (c.rounds : ℚ) * (c.players : ℚ) * c.ante

/-- `GameEngine.simulate`: reset `house_net` to 0, run `rounds` rounds,
compute the guarded edge, return the updated engine and the result record. -/
def simulate (e : GameEngine) (ds : ℕ → ℚ) : GameEngine × SimResult :=
  let s := runRoundsE ds e.config.rounds.toNat (⟨e.config, 0⟩, 0)
  let total := totalInput s.1.config
  let edge := if 0 < total then s.1.house_net / total else 0
  (s.1, ⟨roundTo 2 s.1.house_net, roundTo 4 edge⟩)

/-- `simulate` with Python division embedded fallibly: the division
`house_net / total_input` is only reached under the `total_input > 0`
guard, the `else` arm yields `0.0`. -/
def simulateE (e : GameEngine) (ds : ℕ → ℚ) :
    Except String (GameEngine × SimResult) := do
  let s := runRoundsE ds e.config.rounds.toNat (⟨e.config, 0⟩, 0)
  let total := totalInput s.1.config
  let edge ← if 0 < total then pydiv s.1.house_net total else Except.ok 0
  Except.ok (s.1, ⟨roundTo 2 s.1.house_net, roundTo 4 edge⟩)

/-- The accumulated (unrounded) `house_net` produced by a `simulate` call on
an engine holding configuration `c`, fed by the draw stream `ds`. -/
def netOf (c : Config) (ds : ℕ → ℚ) : ℚ :=
  ((runRoundsE ds c.rounds.toNat (⟨c, 0⟩, 0)).1).house_net

/-- Per-turn magnitude bound: each branch changes `house_net` by at most
`|ante| * max 1 |bust_multiplier|` in absolute value. -/
def turnBound (c : Config) : ℚ := |c.ante| * max 1 |c.bust_multiplier|

/-! ### Helper lemmas -/

theorem roundTo_zero (n : ℕ) : roundTo n 0 = 0 := by
  simp [roundTo, roundHalfEven]

theorem run_round_config (e : GameEngine) (ds : ℕ → ℚ) (idx : ℕ) :
    ((run_round e ds idx).1).config = e.config := rfl

theorem runRoundsE_config (ds : ℕ → ℚ) (n : ℕ) (s : GameEngine × ℕ) :
    ((runRoundsE ds n s).1).config = s.1.config := by
  induction n generalizing s with
  | zero => rfl
  | succ n ih => simpa [runRoundsE] using ih (run_round s.1 ds s.2)

theorem simulate_fst_config (e : GameEngine) (ds : ℕ → ℚ) :
    ((simulate e ds).1).config = e.config := by
  simpa [simulate] using
    runRoundsE_config ds e.config.rounds.toNat (⟨e.config, 0⟩, 0)

theorem simulate_fst_net (e : GameEngine) (ds : ℕ → ℚ) :
    ((simulate e ds).1).house_net = netOf e.config ds := rfl

theorem simulate_res (e : GameEngine) (ds : ℕ → ℚ) :
    (simulate e ds).2 =
      ⟨roundTo 2 (netOf e.config ds),
       roundTo 4 (if 0 < totalInput e.config then
         netOf e.config ds / totalInput e.config else 0)⟩ := by
  simp only [simulate, netOf, runRoundsE_config]

theorem turnDelta_congr (c1 c2 : Config) (r : ℚ)
    (ha : c1.ante = c2.ante) (hb : c1.bust_multiplier = c2.bust_multiplier) :
    turnDelta c1 r = turnDelta c2 r := by
  unfold turnDelta; rw [ha, hb]

theorem runTurns_congr (ds : ℕ → ℚ) (c1 c2 : Config)
    (ha : c1.ante = c2.ante) (hb : c1.bust_multiplier = c2.bust_multiplier)
    (n : ℕ) :
    ∀ (acc : ℚ) (idx : ℕ), runTurns c1 ds n acc idx = runTurns c2 ds n acc idx := by
  induction n with
  | zero => intro acc idx; rfl
  | succ n ih =>
    intro acc idx
    simp only [runTurns]
    rw [turnDelta_congr c1 c2 (ds idx) ha hb]
    exact ih _ _

theorem runRoundsE_state_congr (ds : ℕ → ℚ) (c1 c2 : Config)
    (hp : c1.players = c2.players) (ha : c1.ante = c2.ante)
    (hb : c1.bust_multiplier = c2.bust_multiplier) (n : ℕ) :
    ∀ (a : ℚ) (i : ℕ),
      ((runRoundsE ds n (⟨c1, a⟩, i)).1).house_net
        = ((runRoundsE ds n (⟨c2, a⟩, i)).1).house_net
      ∧ (runRoundsE ds n (⟨c1, a⟩, i)).2 = (runRoundsE ds n (⟨c2, a⟩, i)).2 := by
  induction n with
  | zero => intro a i; exact ⟨rfl, rfl⟩
  | succ n ih =>
    intro a i
    have ht : runTurns c1 ds c1.players.toNat a i
        = runTurns c2 ds c2.players.toNat a i := by
      rw [hp]; exact runTurns_congr ds c1 c2 ha hb _ a i
    simp only [runRoundsE, run_round, ht]
    exact ih _ _

theorem netOf_congr (ds : ℕ → ℚ) (c1 c2 : Config)
    (hp : c1.players = c2.players) (ha : c1.ante = c2.ante)
    (hr : c1.rounds = c2.rounds) (hb : c1.bust_multiplier = c2.bust_multiplier) :
    netOf c1 ds = netOf c2 ds := by
  unfold netOf
  rw [hr]
  exact (runRoundsE_state_congr ds c1 c2 hp ha hb c2.rounds.toNat 0 0).1

theorem abs_turnDelta_le (c : Config) (r : ℚ) :
    |turnDelta c r| ≤ turnBound c := by
  unfold turnDelta turnBound
  split_ifs with h1 h2
  · rw [abs_neg]
    exact le_mul_of_one_le_right (abs_nonneg _) (le_max_left _ _)
  · exact le_mul_of_one_le_right (abs_nonneg _) (le_max_left _ _)
  · rw [abs_mul]
    exact mul_le_mul_of_nonneg_left (le_max_right _ _) (abs_nonneg _)

theorem runTurns_abs_le (c : Config) (ds : ℕ → ℚ) (n : ℕ) :
    ∀ (acc : ℚ) (idx : ℕ),
      |(runTurns c ds n acc idx).1| ≤ |acc| + (n : ℚ) * turnBound c := by
  induction n with
  | zero => intro acc idx; simp [runTurns]
  | succ n ih =>
    intro acc idx
    simp only [runTurns]
    have h1 := ih (acc + turnDelta c (ds idx)) (idx + 1)
    have h2 : |acc + turnDelta c (ds idx)| ≤ |acc| + turnBound c :=
      le_trans (abs_add _ _) (by have := abs_turnDelta_le c (ds idx); linarith)
    calc |(runTurns c ds n (acc + turnDelta c (ds idx)) (idx + 1)).1|
        ≤ |acc + turnDelta c (ds idx)| + (n : ℚ) * turnBound c := h1
      _ ≤ (|acc| + turnBound c) + (n : ℚ) * turnBound c := by linarith
      _ = |acc| + ((n : ℚ) + 1) * turnBound c := by ring
      _ = |acc| + ((n + 1 : ℕ) : ℚ) * turnBound c := by push_cast; ring

theorem runRoundsE_abs_le (ds : ℕ → ℚ) (n : ℕ) :
    ∀ s : GameEngine × ℕ,
      |((runRoundsE ds n s).1).house_net|
        ≤ |s.1.house_net|
          + (n : ℚ) * ((s.1.config.players.toNat : ℚ) * turnBound s.1.config) := by
  induction n with
  | zero => intro s; simp [runRoundsE]
  | succ n ih =>
    intro s
    simp only [runRoundsE]
    have h1 := ih (run_round s.1 ds s.2)
    have hcfg : ((run_round s.1 ds s.2).1).config = s.1.config := rfl
    rw [hcfg] at h1
    have h2 : |((run_round s.1 ds s.2).1).house_net|
        ≤ |s.1.house_net| + (s.1.config.players.toNat : ℚ) * turnBound s.1.config := by
      simpa [run_round] using
        runTurns_abs_le s.1.config ds s.1.config.players.toNat s.1.house_net s.2
    calc |((runRoundsE ds n (run_round s.1 ds s.2)).1).house_net|
        ≤ |((run_round s.1 ds s.2).1).house_net|
          + (n : ℚ) * ((s.1.config.players.toNat : ℚ) * turnBound s.1.config) := h1
      _ ≤ (|s.1.house_net| + (s.1.config.players.toNat : ℚ) * turnBound s.1.config)
          + (n : ℚ) * ((s.1.config.players.toNat : ℚ) * turnBound s.1.config) := by
            linarith
      _ = |s.1.house_net|
          + ((n + 1 : ℕ) : ℚ) * ((s.1.config.players.toNat : ℚ) * turnBound s.1.config) := by
            push_cast; ring

theorem turnDelta_ante_zero (c : Config) (r : ℚ) (ha : c.ante = 0) :
    turnDelta c r = 0 := by
  unfold turnDelta
  rw [ha]
  split_ifs <;> simp

theorem runTurns_ante_zero (c : Config) (ds : ℕ → ℚ) (ha : c.ante = 0) (n : ℕ) :
    ∀ (acc : ℚ) (idx : ℕ), (runTurns c ds n acc idx).1 = acc := by
  induction n with
  | zero => intro acc idx; rfl
  | succ n ih =>
    intro acc idx
    simp only [runTurns]
    rw [turnDelta_ante_zero c (ds idx) ha, add_zero]
    exact ih _ _

theorem runRoundsE_net_ante_zero (ds : ℕ → ℚ) (n : ℕ) :
    ∀ s : GameEngine × ℕ, s.1.config.ante = 0 →
      ((runRoundsE ds n s).1).house_net = s.1.house_net := by
  induction n with
  | zero => intro s _; rfl
  | succ n ih =>
    intro s ha
    simp only [runRoundsE]
    have hcfg : ((run_round s.1 ds s.2).1).config = s.1.config := rfl
    rw [ih (run_round s.1 ds s.2) (by rw [hcfg]; exact ha)]
    simp [run_round, runTurns_ante_zero s.1.config ds ha]

theorem runRoundsE_net_players_zero (ds : ℕ → ℚ) (n : ℕ) :
    ∀ s : GameEngine × ℕ, s.1.config.players.toNat = 0 →
      ((runRoundsE ds n s).1).house_net = s.1.house_net := by
  induction n with
  | zero => intro s _; rfl
  | succ n ih =>
    intro s hp
    simp only [runRoundsE]
    have hcfg : ((run_round s.1 ds s.2).1).config = s.1.config := rfl
    rw [ih (run_round s.1 ds s.2) (by rw [hcfg]; exact hp)]
    simp [run_round, hp, runTurns]

theorem roundHalfEven_intCast (z : ℤ) : roundHalfEven (z : ℚ) = z := by
  unfold roundHalfEven
  rw [Int.floor_intCast]
  norm_num

theorem roundTo_int (n : ℕ) (z : ℤ) : roundTo n ((z : ℚ)) = (z : ℚ) := by
  unfold roundTo
  rw [show ((z : ℚ) * 10 ^ n) = ((z * 10 ^ n : ℤ) : ℚ) by push_cast; ring,
    roundHalfEven_intCast]
  push_cast
  rw [mul_div_assoc, div_self (pow_ne_zero n (by norm_num)), mul_one]

theorem runTurns_const (c : Config) (ds : ℕ → ℚ) (r : ℚ) (h : ∀ i, ds i = r)
    (n : ℕ) :
    ∀ (acc : ℚ) (idx : ℕ),
      runTurns c ds n acc idx = (acc + (n : ℚ) * turnDelta c r, idx + n) := by
  induction n with
  | zero => intro acc idx; simp [runTurns]
  | succ n ih =>
    intro acc idx
    simp only [runTurns, h]
    rw [ih]
    refine Prod.ext ?_ ?_
    · show acc + turnDelta c r + (n : ℚ) * turnDelta c r
        = acc + ((n + 1 : ℕ) : ℚ) * turnDelta c r
      push_cast; ring
    · show idx + 1 + n = idx + (n + 1)
      omega

theorem runRoundsE_net_const (ds : ℕ → ℚ) (r : ℚ) (h : ∀ i, ds i = r) (n : ℕ) :
    ∀ s : GameEngine × ℕ,
      ((runRoundsE ds n s).1).house_net
        = s.1.house_net
          + (n : ℚ) * ((s.1.config.players.toNat : ℚ) * turnDelta s.1.config r) := by
  induction n with
  | zero => intro s; simp [runRoundsE]
  | succ n ih =>
    intro s
    simp only [runRoundsE]
    rw [ih (run_round s.1 ds s.2)]
    have hcfg : ((run_round s.1 ds s.2).1).config = s.1.config := rfl
    have hnet : ((run_round s.1 ds s.2).1).house_net
        = s.1.house_net
          + (s.1.config.players.toNat : ℚ) * turnDelta s.1.config r := by
      simp [run_round,
        runTurns_const s.1.config ds r h s.1.config.players.toNat]
    rw [hcfg, hnet]
    push_cast
    ring

theorem netOf_const (c : Config) (ds : ℕ → ℚ) (r : ℚ) (h : ∀ i, ds i = r) :
    netOf c ds
      = (c.rounds.toNat : ℚ) * ((c.players.toNat : ℚ) * turnDelta c r) := by
  unfold netOf
  rw [runRoundsE_net_const ds r h c.rounds.toNat (⟨c, 0⟩, 0)]
  simp

/-! ### Concrete configurations and draw streams used by witnesses and
counterexamples -/

/-- The defaults of `Config`. -/
def cfgDefault : Config := {}

/-- A constant draw stream: every draw is `0`, i.e. the player-wins branch. -/
def dsZero : ℕ → ℚ := fun _ => 0

/-- A constant draw stream hitting the bust branch (`0.99 ≥ 0.95`). -/
def dsBust : ℕ → ℚ := fun _ => 99 / 100

/-- One player, one round, positive ante. -/
def cfgPos : Config := { players := 1, ante := 5, rounds := 1 }

/-- One player, one round, negative ante: the denominator
`rounds × players × ante` is nonzero but negative. -/
def cfgNegAnte : Config := { players := 1, ante := -5, rounds := 1 }

/-- One player, one round, `bust_multiplier = -2`. -/
def cfgNegBust : Config :=
  { players := 1, ante := 5, rounds := 1, bust_multiplier := -2 }

/-- Zero rounds, other fields at their defaults. -/
def cfgZeroRounds : Config := { rounds := 0 }

/-- Zero players, other fields at their defaults. -/
def cfgZeroPlayers : Config := { players := 0 }

/-- Zero ante with one player and one round. -/
def cfgZeroAnte : Config := { players := 1, ante := 0, rounds := 1 }

/-- The spec's deterministic scenario: 2 players, ante 5, 10 rounds. -/
def cfgScenario : Config := { players := 2, ante := 5, rounds := 10 }

/-- Defaults with all four unused fields changed. -/
def cfgAltUnused : Config :=
  { target_edge := 0, min_edge := 1, max_edge := 2, tube_initial := [] }

/-! ### Claims -/

/-- C1 (amended): whenever the denominator `rounds × players × ante` is
POSITIVE, the `house_edge` returned by `simulate()` equals the accumulated
`house_net` divided by it, rounded to 4 decimal places.  (The original
claim, which also covered negative denominators, is refuted by
`C1_counterexample`: the code guards the division with `total_input > 0`,
so a negative denominator yields `house_edge = 0.0`.) -/
theorem C1_edge_ratio (e : GameEngine) (ds : ℕ → ℚ)
    (h : 0 < totalInput e.config) :
    (simulate e ds).2.house_edge
      = roundTo 4 (((simulate e ds).1).house_net / totalInput e.config) := by
  simp [simulate_res, simulate_fst_net, h]

/-- Witness for C1: with 1 player, 1 round, ante 5 and all draws 0, the
denominator is positive and the returned edge is the rounded ratio. -/
theorem C1_edge_ratio_witness :
    (simulate ⟨cfgPos, 0⟩ dsZero).2.house_edge
      = roundTo 4 (((simulate ⟨cfgPos, 0⟩ dsZero).1).house_net
          / totalInput cfgPos) :=
  C1_edge_ratio ⟨cfgPos, 0⟩ dsZero (by norm_num [totalInput, cfgPos])

/-- Counterexample to C1 as stated: with ante `-5` the denominator is `-5`,
nonzero, yet `simulate` returns `house_edge = 0`, not the rounded ratio
(which is `-1`). -/
theorem C1_counterexample :
    totalInput cfgNegAnte ≠ 0
    ∧ (simulate ⟨cfgNegAnte, 0⟩ dsZero).2.house_edge
      ≠ roundTo 4 (((simulate ⟨cfgNegAnte, 0⟩ dsZero).1).house_net
          / totalInput cfgNegAnte) := by
  have hds : ∀ i, dsZero i = 0 := fun _ => rfl
  have hnet : netOf cfgNegAnte dsZero = 5 := by
    rw [netOf_const cfgNegAnte dsZero 0 hds]
    norm_num [turnDelta, cfgNegAnte]
  have htot : totalInput cfgNegAnte = -5 := by
    norm_num [totalInput, cfgNegAnte]
  have hr1 : roundTo 4 (-1 : ℚ) = -1 := by
    have h := roundTo_int 4 (-1)
    push_cast at h
    exact h
  constructor
  · rw [htot]; norm_num
  · simp only [simulate_res, simulate_fst_net]
    rw [hnet, htot]
    have hif : (if (0 : ℚ) < -5 then (5 : ℚ) / -5 else 0) = 0 := by norm_num
    have hq : (5 : ℚ) / -5 = -1 := by norm_num
    rw [hif, roundTo_zero, hq, hr1]
    norm_num

/-- C2 (amended): for every Configuration obeying the data model's
`players ≥ 0`, `rounds ≥ 0`, `ante ≥ 0` constraints, and ANY real
`bust_multiplier`, the accumulated house_net satisfies
`|house_net| ≤ rounds × players × ante × max(1, |bust_multiplier|)`.
(The original bound with `max(1, bust_multiplier)` fails for
`bust_multiplier < -1`, see `C2_counterexample`.) -/
theorem C2_bounded_accumulator (e : GameEngine) (ds : ℕ → ℚ)
    (hp : 0 ≤ e.config.players) (hr : 0 ≤ e.config.rounds)
    (ha : 0 ≤ e.config.ante) :
    |((simulate e ds).1).house_net|
      ≤ (e.config.rounds : ℚ) * (e.config.players : ℚ) * e.config.ante
        * max 1 |e.config.bust_multiplier| := by
  have hr' : ((e.config.rounds.toNat : ℚ)) = ((e.config.rounds : ℤ) : ℚ) := by
    exact_mod_cast congrArg (fun z : ℤ => (z : ℚ)) (Int.toNat_of_nonneg hr)
  have hp' : ((e.config.players.toNat : ℚ)) = ((e.config.players : ℤ) : ℚ) := by
    exact_mod_cast congrArg (fun z : ℤ => (z : ℚ)) (Int.toNat_of_nonneg hp)
  have hB : turnBound e.config
      = e.config.ante * max 1 |e.config.bust_multiplier| := by
    unfold turnBound; rw [abs_of_nonneg ha]
  have h := runRoundsE_abs_le ds e.config.rounds.toNat (⟨e.config, 0⟩, 0)
  simp only [abs_zero, zero_add] at h
  rw [simulate_fst_net]
  unfold netOf
  refine le_trans h ?_
  rw [hB, hr', hp']
  exact le_of_eq (by ring)

/-- Witness for C2 (amended): at `bust_multiplier = -2`, ante 5, one player
and one round, a bust draw yields `|house_net| = 10 ≤ 1×1×5×max(1,|-2|)`. -/
theorem C2_bounded_accumulator_witness :
    |((simulate ⟨cfgNegBust, 0⟩ dsBust).1).house_net|
      ≤ (cfgNegBust.rounds : ℚ) * (cfgNegBust.players : ℚ) * cfgNegBust.ante
        * max 1 |cfgNegBust.bust_multiplier| :=
  C2_bounded_accumulator ⟨cfgNegBust, 0⟩ dsBust (by decide) (by decide)
    (by decide)

/-- Counterexample to C2 as stated: with `bust_multiplier = -2`, a bust draw
gives `house_net = -10`, but the claimed bound is
`1 × 1 × 5 × max(1, -2) = 5 < 10`. -/
theorem C2_counterexample :
    ¬ (|((simulate ⟨cfgNegBust, 0⟩ dsBust).1).house_net|
        ≤ (cfgNegBust.rounds : ℚ) * (cfgNegBust.players : ℚ) * cfgNegBust.ante
          * max 1 cfgNegBust.bust_multiplier) := by
  have hds : ∀ i, dsBust i = 99 / 100 := fun _ => rfl
  have hnet : netOf cfgNegBust dsBust = -10 := by
    rw [netOf_const cfgNegBust dsBust (99 / 100) hds]
    norm_num [turnDelta, cfgNegBust]
  have hmax : max (1 : ℚ) (-2) = 1 := max_eq_left (by norm_num)
  have habs : |(-10 : ℚ)| = 10 := by
    rw [abs_neg]
    exact abs_of_nonneg (by norm_num)
  intro hle
  simp only [simulate_fst_net] at hle
  rw [hnet, habs] at hle
  norm_num [cfgNegBust, hmax] at hle

/-- C3: for a draw `r` in `[0,1)`, the three branches of `run_round` are
exhaustive and mutually exclusive, and each applies the claimed change:
`r < 0.47` subtracts `ante`, `0.47 ≤ r < 0.95` adds `ante`, `r ≥ 0.95`
adds `ante × bust_multiplier`. -/
theorem C3_branch_trichotomy (c : Config) (r : ℚ) (_h0 : 0 ≤ r) (_h1 : r < 1) :
    (r < 47 / 100 ∨ (47 / 100 ≤ r ∧ r < 95 / 100) ∨ 95 / 100 ≤ r)
    ∧ ¬(r < 47 / 100 ∧ 47 / 100 ≤ r ∧ r < 95 / 100)
    ∧ ¬(r < 47 / 100 ∧ 95 / 100 ≤ r)
    ∧ ¬((47 / 100 ≤ r ∧ r < 95 / 100) ∧ 95 / 100 ≤ r)
    ∧ (r < 47 / 100 → turnDelta c r = -c.ante)
    ∧ (47 / 100 ≤ r → r < 95 / 100 → turnDelta c r = c.ante)
    ∧ (95 / 100 ≤ r → turnDelta c r = c.ante * c.bust_multiplier) := by
  refine ⟨?_, ?_, ?_, ?_, ?_, ?_, ?_⟩
  · rcases lt_or_le r (47 / 100) with h | h
    · exact Or.inl h
    · rcases lt_or_le r (95 / 100) with h2 | h2
      · exact Or.inr (Or.inl ⟨h, h2⟩)
      · exact Or.inr (Or.inr h2)
  · rintro ⟨a, b, -⟩; exact absurd a (not_lt.mpr b)
  · rintro ⟨a, b⟩; exact absurd a (not_lt.mpr (by linarith))
  · rintro ⟨⟨-, b⟩, hc⟩; exact absurd b (not_lt.mpr hc)
  · intro h; unfold turnDelta; rw [if_pos h]
  · intro hlo hhi; unfold turnDelta; rw [if_neg (not_lt.mpr hlo), if_pos hhi]
  · intro h; unfold turnDelta
    rw [if_neg (not_lt.mpr (by linarith)), if_neg (not_lt.mpr h)]

/-- Witness for C3 at `r = 1/2`: the middle branch applies and adds `ante`. -/
theorem C3_branch_trichotomy_witness :
    turnDelta cfgDefault (1 / 2 : ℚ) = cfgDefault.ante :=
  ((C3_branch_trichotomy cfgDefault (1 / 2) (by norm_num)
      (by norm_num)).2.2.2.2.2.1) (by norm_num) (by norm_num)

/-- C4: with `rounds = 0` or `players = 0`, `simulate()` returns
`house_net = 0` and `house_edge = 0` for every draw stream. -/
theorem C4_degenerate (e : GameEngine) (ds : ℕ → ℚ)
    (h : e.config.rounds = 0 ∨ e.config.players = 0) :
    (simulate e ds).2.house_net = 0 ∧ (simulate e ds).2.house_edge = 0 := by
  have hnet : netOf e.config ds = 0 := by
    rcases h with h | h
    · unfold netOf; rw [h]; rfl
    · exact runRoundsE_net_players_zero ds e.config.rounds.toNat
        (⟨e.config, 0⟩, 0) (by simp [h])
  have htot : totalInput e.config = 0 := by
    unfold totalInput
    rcases h with h | h <;> rw [h] <;> norm_num
  refine ⟨?_, ?_⟩ <;> simp [simulate_res, hnet, htot, roundTo_zero]

/-- Witness for C4: `rounds = 0` with defaults elsewhere. -/
theorem C4_degenerate_witness :
    (simulate ⟨cfgZeroRounds, 0⟩ dsZero).2.house_net = 0
    ∧ (simulate ⟨cfgZeroRounds, 0⟩ dsZero).2.house_edge = 0 :=
  C4_degenerate ⟨cfgZeroRounds, 0⟩ dsZero (Or.inl rfl)

/-- C5: with `ante = 0` (players, rounds positive), every branch changes
`house_net` by zero, so `simulate()` returns `house_net = 0` and
`house_edge = 0` regardless of `bust_multiplier` and the draws. -/
theorem C5_zero_ante (e : GameEngine) (ds : ℕ → ℚ) (ha : e.config.ante = 0)
    (_hp : 0 < e.config.players) (_hr : 0 < e.config.rounds) :
    (simulate e ds).2.house_net = 0 ∧ (simulate e ds).2.house_edge = 0 := by
  have hnet : netOf e.config ds = 0 :=
    runRoundsE_net_ante_zero ds e.config.rounds.toNat (⟨e.config, 0⟩, 0) ha
  have htot : totalInput e.config = 0 := by unfold totalInput; rw [ha]; ring
  refine ⟨?_, ?_⟩ <;> simp [simulate_res, hnet, htot, roundTo_zero]

/-- Witness for C5: one player, one round, zero ante. -/
theorem C5_zero_ante_witness :
    (simulate ⟨cfgZeroAnte, 0⟩ dsBust).2.house_net = 0
    ∧ (simulate ⟨cfgZeroAnte, 0⟩ dsBust).2.house_edge = 0 :=
  C5_zero_ante ⟨cfgZeroAnte, 0⟩ dsBust rfl (by decide) (by decide)

/-- C6: with every draw equal to `0` (always the player-wins branch) and
`Configuration(players=2, ante=5, rounds=10)`, `simulate()` returns
`house_net = -100` and `house_edge = -1`. -/
theorem C6_deterministic_scenario :
    (simulate ⟨cfgScenario, 0⟩ dsZero).2 =
      ⟨(-100 : ℚ), (-1 : ℚ)⟩ := by
  have hds : ∀ i, dsZero i = 0 := fun _ => rfl
  have hnet : netOf cfgScenario dsZero = -100 := by
    rw [netOf_const cfgScenario dsZero 0 hds,
      show cfgScenario.rounds.toNat = 10 from rfl,
      show cfgScenario.players.toNat = 2 from rfl]
    norm_num [turnDelta, cfgScenario]
  have htot : totalInput cfgScenario = 100 := by
    norm_num [totalInput, cfgScenario]
  have h100 : roundTo 2 (-100 : ℚ) = -100 := by
    have h := roundTo_int 2 (-100)
    push_cast at h
    exact h
  have h1 : roundTo 4 (-1 : ℚ) = -1 := by
    have h := roundTo_int 4 (-1)
    push_cast at h
    exact h
  simp only [simulate_res]
  rw [hnet, htot]
  have hif : (if (0 : ℚ) < 100 then (-100 : ℚ) / 100 else 0) = -1 := by
    norm_num
  rw [hif, h100, h1]

/-- C7: `simulate` signals no error for any input.  `simulateE`, in which
Python division raises on a zero divisor, always returns `Except.ok` of the
`simulate` result; and whenever `players × rounds × ante = 0` the returned
`house_edge` is `0` rather than a division failure. -/
theorem C7_no_error (e : GameEngine) (ds : ℕ → ℚ) :
    simulateE e ds = Except.ok (simulate e ds)
    ∧ ((e.config.players : ℚ) * (e.config.rounds : ℚ) * e.config.ante = 0 →
        (simulate e ds).2.house_edge = 0) := by
  constructor
  · by_cases h : 0 < totalInput
        ((runRoundsE ds e.config.rounds.toNat (⟨e.config, 0⟩, 0)).1).config
    · simp [simulateE, simulate, pydiv, h, ne_of_gt h, Bind.bind, Except.bind]
    · simp [simulateE, simulate, pydiv, h, Bind.bind, Except.bind]
  · intro h0
    have htot : totalInput e.config = 0 := by
      unfold totalInput
      linear_combination h0
    simp [simulate_res, htot, roundTo_zero]

/-- Witness for C7: zero players (so the wager product is zero) yields a
`house_edge` of `0` instead of a division failure. -/
theorem C7_no_error_witness :
    (simulate ⟨cfgZeroPlayers, 0⟩ dsZero).2.house_edge = 0 :=
  (C7_no_error ⟨cfgZeroPlayers, 0⟩ dsZero).2 (by norm_num [cfgZeroPlayers])

/-- C8: calling `simulate()` a second time on the engine returned by a
first call, with the same draw stream, yields an identical result — the
accumulator is reset at the start of each call, so no state carries over. -/
theorem C8_repeatable (e : GameEngine) (ds : ℕ → ℚ) :
    simulate ((simulate e ds).1) ds = simulate e ds := by
  have key : ∀ x y : GameEngine, x.config = y.config →
      simulate x ds = simulate y ds := by
    intro x y h
    obtain ⟨cx, hx⟩ := x
    obtain ⟨cy, hy⟩ := y
    have h2 : cx = cy := h
    subst h2
    rfl
  exact key _ _ (simulate_fst_config e ds)

/-- C9: the result record of `simulate()` does not depend on the unused
fields `target_edge`, `min_edge`, `max_edge` and `tube_initial`: two
configurations agreeing on `players`, `ante`, `rounds` and
`bust_multiplier` give the same result on any shared draw stream. -/
theorem C9_unused_fields (c1 c2 : Config) (h1 h2 : ℚ) (ds : ℕ → ℚ)
    (hp : c1.players = c2.players) (ha : c1.ante = c2.ante)
    (hr : c1.rounds = c2.rounds) (hb : c1.bust_multiplier = c2.bust_multiplier) :
    (simulate ⟨c1, h1⟩ ds).2 = (simulate ⟨c2, h2⟩ ds).2 := by
  have hnet : netOf c1 ds = netOf c2 ds := netOf_congr ds c1 c2 hp ha hr hb
  have htot : totalInput c1 = totalInput c2 := by
    unfold totalInput
    rw [hp, ha, hr]
  simp only [simulate_res]
  rw [hnet, htot]

/-- Witness for C9: changing all four unused fields away from their
defaults leaves the result record unchanged. -/
theorem C9_unused_fields_witness :
    (simulate ⟨cfgAltUnused, 0⟩ dsZero).2 = (simulate ⟨cfgDefault, 0⟩ dsZero).2 :=
  C9_unused_fields cfgAltUnused cfgDefault 0 0 dsZero rfl rfl rfl rfl

/-- C10: neither `run_round` nor `simulate` mutates the Configuration: one
`run_round` call, and any number of chained `simulate()` calls (with
arbitrary draw streams), leave every field of the stored Configuration
equal to its value at construction. -/
theorem C10_config_immutable (e : GameEngine) (ds : ℕ → ℚ) (idx : ℕ)
    (dss : List (ℕ → ℚ)) :
    ((run_round e ds idx).1).config = e.config
    ∧ ((dss.foldl (fun en d => (simulate en d).1) e)).config = e.config := by
  refine ⟨rfl, ?_⟩
  induction dss generalizing e with
  | nil => rfl
  | cons d t ih =>
    simp only [List.foldl_cons]
    rw [ih ((simulate e d).1), simulate_fst_config]

end P0ker
